import Mathlib

/-!
Shallow embedding of the osm2rdf core pipeline (src/parser.rs, src/str_builder.rs,
src/utils.rs) and proofs about it.

Modelling conventions:
* Rust `String` buffers are `List Char` (named `Chars` below); appends mirror the
  source's `write!`/`push_str` calls.
* `f64` coordinates are carried as their rendered decimal strings (the code only
  ever formats them with `Display`; no arithmetic is performed on them), so a
  coordinate is a `Chars` value such as "52.5".
* `i64`/`i32` are `Int`; `u64` counters are `Nat` (the counters only ever grow by
  one per element, so 2^64 wrap-around is unreachable for any real input);
  `as usize`/`as u32` casts are modelled with explicit `emod 2^64` / `emod 2^32`.
* The regexes in parser.rs are modelled as executable character-list matchers;
  each matcher's doc comment maps it to the regex.  Because every regex involved
  is anchored and each repeated character class is disjoint from the characters
  that may follow it, greedy maximal-munch matching coincides with backtracking
  regex semantics, so the deterministic matchers below are faithful.
-/

abbrev Chars := List Char

/-- Convert a string literal to the `List Char` representation. -/
def lit (s : String) : Chars := s.data

/-- ASCII part of Unicode `White_Space`, the class used both by the regex `\s`
and by Rust's `str::trim` / `char::is_whitespace`.  (The non-ASCII members of
the class behave identically in all statements proved below and are omitted.) -/
def isWsChar (c : Char) : Bool :=
  c = ' ' || c = '\t' || c = '\n' || c = '\r' || c.toNat = 11 || c.toNat = 12

/-- The regex class `[0-9]`. -/
def isDigitChar (c : Char) : Bool := decide (48 ≤ c.toNat ∧ c.toNat ≤ 57)

/-- The regex class `[1-9]`. -/
def isNonzeroDigit (c : Char) : Bool := decide (49 ≤ c.toNat ∧ c.toNat ≤ 57)

/-- The regex class `[0-9a-zA-Z_]` (first/last char of RE_SIMPLE_LOCAL_NAME). -/
def isWordChar (c : Char) : Bool := c.isAlphanum || c = '_'

/-- The regex class `[-:0-9a-zA-Z_]` (interior chars of RE_SIMPLE_LOCAL_NAME). -/
def isMidChar (c : Char) : Bool := isWordChar c || c = '-' || c = ':'

/-- Rust `str::contains` for a literal pattern. -/
def hasSubstr (pat l : Chars) : Bool := l.tails.any (fun t => pat.isPrefixOf t)

/-- Matcher for `RE_SIMPLE_LOCAL_NAME`: `^[0-9a-zA-Z_]([-:0-9a-zA-Z_]{0,58}[0-9a-zA-Z_])?$`
(one word char, or a word char, at most 58 interior chars, and a word char). -/
def simpleLocalName : Chars → Bool
  | [] => false
  | [c] => isWordChar c
  | c :: cs =>
    isWordChar c && decide (cs.length ≤ 59) && cs.dropLast.all isMidChar &&
      (match cs.getLast? with
       | some d => isWordChar d
       | none => true)

/-- Matcher for `RE_WIKIDATA_VALUE`: `^Q[1-9][0-9]{0,18}$`. -/
def wdSingle : Chars → Bool
  | c0 :: c1 :: cs =>
    c0 = 'Q' && isNonzeroDigit c1 && cs.all isDigitChar && decide (cs.length ≤ 18)
  | _ => false

/-- DFA phase for `RE_WIKIDATA_MULTI_VALUE` (see `wdMulti`). -/
inductive WdPhase
  | needQ
  | needD
  | inDigits (n : Nat)
  | needSemi
  | afterSemi
  | dead
deriving DecidableEq, Repr

/-- DFA state: current phase plus whether at least one `;` group was consumed. -/
structure WdState where
  ph : WdPhase
  sep : Bool
deriving DecidableEq, Repr

/-- One DFA transition for `RE_WIKIDATA_MULTI_VALUE`
(`^Q[1-9][0-9]{0,18}(\s*;\s*Q[1-9][0-9]{0,18})+$`).
`needQ` expects the leading `Q`; `needD` the `[1-9]`; `inDigits n` has read `n`
of the up-to-18 further `[0-9]`; `needSemi` has read whitespace after an
identifier, so only `\s*` or `;` may follow; `afterSemi` is inside the `\s*`
after a `;`.  The pattern is anchored and each repetition class (`[0-9]`, `\s`)
is disjoint from its possible successors (`\s`, `;`, `Q`), so this DFA accepts
exactly the regex's language. -/
def wdStep (st : WdState) (c : Char) : WdState :=
  match st.ph with
  | .needQ => if c = 'Q' then ⟨.needD, st.sep⟩ else ⟨.dead, st.sep⟩
  | .needD => if isNonzeroDigit c then ⟨.inDigits 0, st.sep⟩ else ⟨.dead, st.sep⟩
  | .inDigits n =>
    if isDigitChar c then
      (if n < 18 then ⟨.inDigits (n + 1), st.sep⟩ else ⟨.dead, st.sep⟩)
    else if c = ';' then ⟨.afterSemi, true⟩
    else if isWsChar c then ⟨.needSemi, st.sep⟩
    else ⟨.dead, st.sep⟩
  | .needSemi =>
    if c = ';' then ⟨.afterSemi, true⟩
    else if isWsChar c then st
    else ⟨.dead, st.sep⟩
  | .afterSemi =>
    if c = 'Q' then ⟨.needD, st.sep⟩
    else if isWsChar c then st
    else ⟨.dead, st.sep⟩
  | .dead => st

/-- Acceptance for `RE_WIKIDATA_MULTI_VALUE`: the whole value was consumed,
ends inside the digits of an identifier, and at least one `;` was seen. -/
def wdAccept (st : WdState) : Bool :=
  match st with
  | ⟨.inDigits _, true⟩ => true
  | _ => false

/-- Matcher for `RE_WIKIDATA_MULTI_VALUE.is_match`. -/
def wdMulti (l : Chars) : Bool := wdAccept (l.foldl wdStep ⟨.needQ, false⟩)

/-- Rust `str::split(';')`: pieces between the `;` occurrences, in order. -/
def splitSemi : Chars → List Chars
  | [] => [[]]
  | c :: cs =>
    if c = ';' then [] :: splitSemi cs
    else
      match splitSemi cs with
      | p :: ps => (c :: p) :: ps
      | [] => [[c]]

/-- Rust `str::trim`: drop whitespace from both ends. -/
def trimChars (l : Chars) : Chars :=
  ((l.dropWhile isWsChar).reverse.dropWhile isWsChar).reverse

/-- Rendering of `XsdIter` (its `Display` impl): first item, then each further item preceded by `,`. -/
def commaJoin : List Chars → Chars
  | [] => []
  | x :: xs => x ++ (xs.map (fun y => ',' :: y)).flatten

/-- Lower-case hex digit (the `json` crate escapes control chars as `\u00xx`). -/
def hexLower (n : Nat) : Char := (lit "0123456789abcdef").getD n '0'

/-- Upper-case hex digit (the `percent-encoding` crate emits `%XX`). -/
def hexUpper (n : Nat) : Char := (lit "0123456789ABCDEF").getD n '0'

/-- One character of `json::JsonValue::dump` string escaping: `"` and `\` are
backslash-escaped, the named control chars use their short forms, the other
control chars become `\u00xx`, and everything else is copied verbatim. -/
def jsonEscapeChar (c : Char) : Chars :=
  if c = '"' then ['\\', '"']
  else if c = '\\' then ['\\', '\\']
  else if c = '\n' then ['\\', 'n']
  else if c = '\r' then ['\\', 'r']
  else if c = '\t' then ['\\', 't']
  else if c.toNat = 8 then ['\\', 'b']
  else if c.toNat = 12 then ['\\', 'f']
  else if c.toNat < 32 then ['\\', 'u', '0', '0', hexLower (c.toNat / 16), hexLower (c.toNat % 16)]
  else [c]

/-- Rendering of `XsdStr` (its `Display` impl): `JsonValue::from(s).dump()`, a quoted JSON string. -/
def jsonStr (s : Chars) : Chars := '"' :: ((s.map jsonEscapeChar).flatten ++ ['"'])

/-- UTF-8 encoding of one scalar value, as the list of its byte values. -/
def utf8Bytes (c : Char) : List Nat :=
  let n := c.toNat
  if n < 128 then [n]
  else if n < 2048 then [192 + n / 64, 128 + n % 64]
  else if n < 65536 then [224 + n / 4096, 128 + n / 64 % 64, 128 + n % 64]
  else [240 + n / 262144, 128 + n / 4096 % 64, 128 + n / 64 % 64, 128 + n % 64]

/-- Rust `String::len`: length in UTF-8 bytes. -/
def byteLen (s : Chars) : Nat := (s.map (fun c => (utf8Bytes c).length)).sum

/-- Membership in `PERCENT_ENC_SET` from utils.rs: the `CONTROLS` set (0x00-0x1F and 0x7F)
plus `;@$!*(),/~:#`. -/
def inPctSet (b : Nat) : Bool :=
  b < 32 || b = 127 || (lit ";@$!*(),/~:#").any (fun c => c.toNat = b)

/-- One byte of `utf8_percent_encode`: non-ASCII bytes and set members become
`%XX` (upper-case hex); other bytes pass through. -/
def pctEncodeByte (b : Nat) : Chars :=
  if b ≥ 128 || inPctSet b then ['%', hexUpper (b / 16), hexUpper (b % 16)]
  else [Char.ofNat b]

/-- Rust `utf8_percent_encode(s, PERCENT_ENC_SET)`. -/
def pctEncode (s : Chars) : Chars :=
  ((s.map utf8Bytes).flatten.map pctEncodeByte).flatten

/-- The regex class `[-a-z]` (wikipedia language code chars). -/
def isLangChar (c : Char) : Bool := c = '-' || ('a' ≤ c && c ≤ 'z')

/-- Matcher for `RE_WIKIPEDIA_VALUE.captures`: `^([-a-z]+):(.+)$`, returning the two
capture groups.  `[-a-z]` excludes `:`, so the greedy first group is the
maximal `[-a-z]` run; `.` matches anything except `\n`, and the match is
anchored, so the title is the entire remainder (nonempty, no newline). -/
def wikipediaCapture (l : Chars) : Option (Chars × Chars) :=
  let lang := l.takeWhile isLangChar
  if lang.isEmpty then none
  else
    match l.drop lang.length with
    | ':' :: title =>
      if title.isEmpty || title.any (· = '\n') then none else some (lang, title)
    | _ => none

/-- Modelled from the spec: `StringBuf::push_value` is absent from
src/str_builder.rs (only its callers in src/parser.rs remain).  Per §4.2 the
encoder appends one clause per call, separated by the clause separator; the
renamed sibling `StringBuf::add_value` in src/str_builder.rs shows the exact
shape: `writeln!(self, "{predicate} {value};")`. -/
def mkClause (pred obj : Chars) : Chars := pred ++ ' ' :: (obj ++ [';', '\n'])

/-- The clauses `Parser::push_all_tags` appends for one `(key, value)` tag:
skip `created_by`; keys failing `RE_SIMPLE_LOCAL_NAME` yield an `osmm:badkey`
clause carrying the value; keys containing `wikidata` get the typed-reference
special cases; keys containing `wikipedia` get the hyperlink special case;
everything else (including fall-throughs) is a quoted string clause. -/
def pushTag (key val : Chars) : Chars :=
  if key = lit "created_by" then []
  else if ¬ simpleLocalName key then mkClause (lit "osmm:badkey") (jsonStr val)
  else
    let prop := lit "osmt:" ++ key
    if hasSubstr (lit "wikidata") key then
      if wdSingle val then mkClause prop (lit "wd:" ++ val)
      else if wdMulti val then
        mkClause prop (commaJoin ((splitSemi val).map (fun v => lit "wd:" ++ trimChars v)))
      else mkClause prop (jsonStr val)
    else if hasSubstr (lit "wikipedia") key then
      match wikipediaCapture val with
      | some (lang, title) =>
        mkClause prop
          (lit "<https://" ++ lang ++ lit ".wikipedia.org/wiki/" ++
            pctEncode (title.map (fun c => if c = ' ' then '_' else c)) ++ lit ">")
      | none => mkClause prop (jsonStr val)
    else mkClause prop (jsonStr val)

/-- Rendering of `Parser::push_all_tags` over a whole tag list. -/
def pushAllTags (tags : List (Chars × Chars)) : Chars :=
  (tags.map (fun kv => pushTag kv.1 kv.2)).flatten

/-- The clauses `StringBuf::add_tags` (src/str_builder.rs) appends for one tag.
It duplicates `Parser::push_all_tags` except in the bad-key arm, where it
renders the KEY (`self.add_value("osmm:badkey", XsdStr(key))`) instead of the
value. -/
def addTagsTag (key val : Chars) : Chars :=
  if key = lit "created_by" then []
  else if ¬ simpleLocalName key then mkClause (lit "osmm:badkey") (jsonStr key)
  else
    let prop := lit "osmt:" ++ key
    if hasSubstr (lit "wikidata") key then
      if wdSingle val then mkClause prop (lit "wd:" ++ val)
      else if wdMulti val then
        mkClause prop (commaJoin ((splitSemi val).map (fun v => lit "wd:" ++ trimChars v)))
      else mkClause prop (jsonStr val)
    else if hasSubstr (lit "wikipedia") key then
      match wikipediaCapture val with
      | some (lang, title) =>
        mkClause prop
          (lit "<https://" ++ lang ++ lit ".wikipedia.org/wiki/" ++
            pctEncode (title.map (fun c => if c = ' ' then '_' else c)) ++ lit ">")
      | none => mkClause prop (jsonStr val)
    else mkClause prop (jsonStr val)

/-- Rendering of `StringBuf::add_tags` over a whole tag list. -/
def addTags (tags : List (Chars × Chars)) : Chars :=
  (tags.map (fun kv => addTagsTag kv.1 kv.2)).flatten

/-- Type `Element` from utils.rs: tagged union over node/way/relation. -/
inductive Element
  | Node
  | Way
  | Relation
deriving DecidableEq, Repr

/-- Rendering of `impl Display for Element` (utils.rs): the namespace written before `:id`
in each element header line. -/
def elementShow : Element → Chars
  | .Node => lit "osmnode"
  | .Way => lit "osmway"
  | .Relation => lit "osmrel"

/-- Rendering of `XsdElement` (str_builder.rs): the quoted type marker. -/
def xsdElement : Element → Chars
  | .Node => lit "\"n\""
  | .Way => lit "\"w\""
  | .Relation => lit "\"r\""

/-- Type `osmpbf::RelMemberType`. -/
inductive RelMemberType
  | Node
  | Way
  | Relation
deriving DecidableEq, Repr

/-- One relation member as used by `Parser::on_relation`: its kind, id and
role string (`RelMember::role()` — always present, possibly empty). -/
structure RelMemberM where
  mtype : RelMemberType
  mid : Int
  role : Chars
deriving DecidableEq, Repr

/-- An `i64` rendered by Rust's `Display` (identical to Lean's `toString`). -/
def intShow (n : Int) : Chars := (toString n).data

/-- Rendering of `XsdRelMember` (str_builder.rs): namespaced member reference. -/
def xsdRelMember (m : RelMemberM) : Chars :=
  (match m.mtype with
   | .Node => lit "osmnode:"
   | .Way => lit "osmway:"
   | .Relation => lit "osmrel:") ++ intShow m.mid

/-- Rendering of `XsdInteger` (str_builder.rs). -/
def xsdInt (n : Int) : Chars := '"' :: (intShow n ++ lit "\"^^xsd:integer")

/-- Rendering of `XsdBoolean` (str_builder.rs). -/
def xsdBool (b : Bool) : Chars :=
  '"' :: ((if b then lit "true" else lit "false") ++ lit "\"^^xsd:boolean")

/-- Function `to_utc` (utils.rs): `Utc.timestamp_opt(ts / 1000, (ts % 1000) as u32)`.
Rust `/` and `%` on `i64` truncate toward zero (`tdiv`/`tmod`); the `as u32`
cast wraps modulo 2^32.  `timestamp_opt(secs, nsecs)` - whose second argument
is a NANOSECOND count - returns `Some` iff `nsecs < 2_000_000_000` (chrono
additionally rejects seconds outside its ±262000-year range, far beyond every
value appearing below).  `none` models the panic of the `.unwrap()`. -/
def toUtc (ts : Int) : Option (Int × Nat) :=
  let secs := ts.tdiv 1000
  let nsec := ((ts.tmod 1000).emod 4294967296).toNat
  if nsec < 2000000000 then some (secs, nsec) else none

/-- Proleptic-Gregorian date from a day count relative to 1970-01-01
(Howard Hinnant's `civil_from_days`, the algorithm underlying chrono). -/
def civilFromDays (z0 : Int) : Int × Int × Int :=
  let z := z0 + 719468
  let era := z.fdiv 146097
  let doe := z - era * 146097
  let yoe := (doe - doe.fdiv 1460 + doe.fdiv 36524 - doe.fdiv 146096).fdiv 365
  let y := yoe + era * 400
  let doy := doe - (365 * yoe + yoe.fdiv 4 - yoe.fdiv 100)
  let mp := (5 * doy + 2).fdiv 153
  let d := doy - (153 * mp + 2).fdiv 5 + 1
  let m := mp + (if mp < 10 then 3 else -9)
  (y + (if m ≤ 2 then 1 else 0), m, d)

/-- Zero-pad a natural number to `w` digits. -/
def padNat (w : Nat) (k : Nat) : Chars :=
  List.replicate (w - (toString k).data.length) '0' ++ (toString k).data

/-- chrono's `%Y`: at least four digits, zero-padded, `-` for negative years. -/
def padYear (y : Int) : Chars :=
  if y < 0 then '-' :: padNat 4 (-y).toNat else padNat 4 y.toNat

/-- chrono's `%.f`: empty when zero, otherwise `.` plus 3, 6 or 9 digits. -/
def fracShow (ns : Nat) : Chars :=
  if ns = 0 then []
  else if ns % 1000000 = 0 then '.' :: padNat 3 (ns / 1000000)
  else if ns % 1000 = 0 then '.' :: padNat 6 (ns / 1000)
  else '.' :: padNat 9 ns

/-- Rendering (`Display`) of a chrono `DateTime<Utc>` (`"%Y-%m-%d %H:%M:%S%.f UTC"`). -/
def fmtUtcPair (secs : Int) (ns : Nat) : Chars :=
  let days := secs.fdiv 86400
  let sod := (secs.emod 86400).toNat
  let ymd := civilFromDays days
  padYear ymd.1 ++ '-' :: padNat 2 ymd.2.1.toNat ++ '-' :: padNat 2 ymd.2.2.toNat ++
    ' ' :: padNat 2 (sod / 3600) ++ ':' :: padNat 2 (sod / 60 % 60) ++
    ':' :: padNat 2 (sod % 60) ++ fracShow ns ++ lit " UTC"

/-- Formatting `{}` applied to `to_utc(ts)`: its `Display` rendering.  The `none` branch
marks the panic of `to_utc`'s `.unwrap()` (never reachable in the statements
proved below). -/
def chronoShow (ts : Int) : Chars :=
  match toUtc ts with
  | some p => fmtUtcPair p.1 p.2
  | none => lit "<to_utc panicked>"

/-- Rendering of `XsdDateTime` (str_builder.rs): quoted `to_utc(ts)` rendering
with an `^^xsd:dateTime` suffix.  (The comment above it in the source shows the
intended ISO-8601 shape `"%Y-%m-%dT%H:%M:%SZ"`; the code actually uses the
default chrono rendering modelled here.) -/
def xsdDateTime (ts : Int) : Chars := '"' :: (chronoShow ts ++ lit "\"^^xsd:dateTime")

/-- Steps `StringBuf::pop(); pop(); push_str(".\n")`: replace the final clause's
`;\n` with `.\n` (the statement terminator). -/
def popPopDot (l : Chars) : Chars := l.dropLast.dropLast ++ ['.', '\n']

/-- Modelled from the spec: `StringBuf::push_metadata` is absent from
src/str_builder.rs (only its callers in src/parser.rs remain).  Per §4.2,
`render_metadata` emits the version as typed integer, the user as quoted
string, the timestamp as typed instant and the changeset as typed integer, and
terminates the block with the statement terminator instead of the clause
separator; the renamed sibling `StringBuf::finalize` in src/str_builder.rs
shows exactly these clauses and the `pop(); pop(); push_str(".\n")` ending.
Every caller passes an unwrapped (present) user string. -/
def pushMetadata (version : Int) (user : Chars) (ts : Int) (changeset : Int) : Chars :=
  popPopDot
    (mkClause (lit "osmm:version") (xsdInt version) ++
     mkClause (lit "osmm:user") (jsonStr user) ++
     mkClause (lit "osmm:timestamp") (xsdDateTime ts) ++
     mkClause (lit "osmm:changeset") (xsdInt changeset))

/-- Structure `Stats` (utils.rs): per-worker counters. -/
structure Stats where
  added_nodes : Nat
  added_rels : Nat
  added_ways : Nat
  skipped_nodes : Nat
  deleted_nodes : Nat
  deleted_rels : Nat
  deleted_ways : Nat
  blocks : Nat
deriving DecidableEq, Repr

/-- Value `Stats::default()`. -/
def zeroStats : Stats := ⟨0, 0, 0, 0, 0, 0, 0, 0⟩

/-- Operation `Stats::combine` (utils.rs): element counters are added field-wise, but
`blocks` is incremented by one per call (`self.blocks += 1`), ignoring
`other.blocks`. -/
def Stats.combine (self other : Stats) : Stats :=
  { added_nodes := self.added_nodes + other.added_nodes
    added_rels := self.added_rels + other.added_rels
    added_ways := self.added_ways + other.added_ways
    skipped_nodes := self.skipped_nodes + other.skipped_nodes
    deleted_nodes := self.deleted_nodes + other.deleted_nodes
    deleted_rels := self.deleted_rels + other.deleted_rels
    deleted_ways := self.deleted_ways + other.deleted_ways
    blocks := self.blocks + 1 }

/-- Merging `k` worker `Stats` values into an accumulator, one `combine` call
per value (as the per-`Parser` `Drop` impl does under the parent mutex). -/
def combineAll (z : Stats) (l : List Stats) : Stats := l.foldl Stats.combine z

/-- Type `Statement` (utils.rs). -/
inductive Statement
  | Skip
  | Delete (elem : Element) (id : Int)
  | Create (elem : Element) (id : Int) (ts : Int) (val : Chars)
deriving DecidableEq, Repr

/-- The coordinate cache interface as `Parser` uses it: id-keyed store of
(lat, lon) pairs (coordinates as rendered decimal strings, see the header). -/
def CacheM := Nat → Option (Chars × Chars)

/-- An empty cache. -/
def emptyCache : CacheM := fun _ => none

/-- Operation `cache.set_lat_lon(id, lat, lon)`. -/
def cacheSet (c : CacheM) (k : Nat) (lat lon : Chars) : CacheM :=
  fun i => if i = k then some (lat, lon) else c i

/-- The `as usize` cast applied to an `i64` id (wraps modulo 2^64). -/
def usizeOf (id : Int) : Nat := (id.emod 18446744073709551616).toNat

/-- Rendering of `XsdPoint` (str_builder.rs): `"Point({lon} {lat})"` with the
`geo:wktLiteral` type - longitude first. -/
def xsdPoint (lat lon : Chars) : Chars :=
  lit "\"Point(" ++ lon ++ ' ' :: (lat ++ lit ")\"^^geo:wktLiteral")

/-- Function `Parser::process_node` (parser.rs): deleted nodes count and yield `Delete`;
otherwise the coordinates are written to the cache first, the tags are
rendered, and an empty body yields `Skip` while a nonempty one yields `Create`
with the location and type-marker clauses appended (`ts` is left `0` here; the
callers overwrite it).  Returns (stats, cache, statement). -/
def processNode (stats : Stats) (cache : CacheM) (is_deleted : Bool) (id : Int)
    (tags : List (Chars × Chars)) (lat lon : Chars) : Stats × CacheM × Statement :=
  if is_deleted then
    ({ stats with deleted_nodes := stats.deleted_nodes + 1 }, cache, .Delete .Node id)
  else
    let cache2 := cacheSet cache (usizeOf id) lat lon
    let v := pushAllTags tags
    if v.isEmpty then
      ({ stats with skipped_nodes := stats.skipped_nodes + 1 }, cache2, .Skip)
    else
      ({ stats with added_nodes := stats.added_nodes + 1 }, cache2,
        .Create .Node id 0
          (v ++ mkClause (lit "osmm:loc") (xsdPoint lat lon) ++
            mkClause (lit "osmm:type") (xsdElement .Node)))

/-- Structure `osmpbf::Info` as `Parser` consumes it (all the `.unwrap()`ed accessors). -/
structure InfoM where
  deleted : Bool
  version : Int
  user : Chars
  milli_timestamp : Int
  changeset : Int
deriving DecidableEq, Repr

/-- One decoded relation as `Parser::on_relation` consumes it. -/
structure RelationM where
  id : Int
  info : InfoM
  tags : List (Chars × Chars)
  members : List RelMemberM
deriving DecidableEq, Repr

/-- The two clauses `Parser::on_relation` pushes per member: the `osmm:has`
reference, then - unconditionally - the role association. -/
def memberClauses (ms : List RelMemberM) : Chars :=
  (ms.map (fun m =>
    mkClause (lit "osmm:has") (xsdRelMember m) ++
      mkClause (xsdRelMember m) (jsonStr m.role))).flatten

/-- Function `Parser::on_relation` (parser.rs).  A deleted relation counts into
`deleted_rels` but is emitted as `Delete { elem: Element::Way, .. }` - the
`elem` in that branch is `Element::Way` in the source.  Otherwise: tags, the
type marker, the metadata block (via `push_info`), then both clauses per
member; emitted as `Create` with the info timestamp. -/
def onRelation (stats : Stats) (rel : RelationM) : Stats × Statement :=
  if rel.info.deleted then
    ({ stats with deleted_rels := stats.deleted_rels + 1 }, .Delete .Way rel.id)
  else
    let v := pushAllTags rel.tags ++ mkClause (lit "osmm:type") (xsdElement .Relation) ++
      pushMetadata rel.info.version rel.info.user rel.info.milli_timestamp
        rel.info.changeset ++ memberClauses rel.members
    ({ stats with added_rels := stats.added_rels + 1 },
      .Create .Relation rel.id rel.info.milli_timestamp v)

/-- The element header line the writer emits before a `Create` body:
`writeln!(enc, "{elem}:{id}\n{val}")` starts with `{elem}:{id}` and a newline. -/
def elemHeader (e : Element) (id : Int) : Chars :=
  elementShow e ++ ':' :: (intShow id ++ ['\n'])

/-- Writer-thread state (start_writer_thread, parser.rs): the optionally open
current file's text, its accumulated uncompressed byte count, the finished
files, and the running `fetch_max` timestamp register (initially 0). -/
structure WState where
  cur : Option Chars
  size : Nat
  files : List Chars
  maxTs : Int
deriving Repr

/-- One loop iteration of the writer thread.  Only `Create` statements act:
the timestamp register takes a max, a file is opened lazily (with NO header
written - `new_gz_file` only creates the compressed file), the element header
line and body are appended, and once the accumulated `val` byte count exceeds
the limit the file is finished and the counter cleared. -/
def wstep (maxFileSize : Nat) (st : WState) (s : Statement) : WState :=
  match s with
  | .Create e id ts val =>
    let maxTs := max st.maxTs ts
    let content := st.cur.getD [] ++ elemHeader e id ++ val ++ ['\n']
    let size := st.size + byteLen val
    if size > maxFileSize then
      ⟨none, 0, st.files ++ [content], maxTs⟩
    else
      ⟨some content, size, st.files, maxTs⟩
  | _ => st

/-- The complete writer thread run over the received statement sequence: the
streaming loop, then (after channel closure) the still-open data file is
flushed by drop and one trailer file is written containing the single
`osmroot: schema:dateModified {ts}.` line for the register's final value.
Returns the file contents in creation order and the final register value. -/
def writerRun (maxFileSize : Nat) (stmts : List Statement) : List Chars × Int :=
  let st := stmts.foldl (wstep maxFileSize) ⟨none, 0, [], 0⟩
  (st.files ++ st.cur.toList ++
    [lit "osmroot: schema:dateModified " ++ chronoShow st.maxTs ++ lit ".\n"],
   st.maxTs)

/-- The `ts` fields of the `Create` statements of a sequence, in order. -/
def createTs (l : List Statement) : List Int :=
  l.filterMap (fun s =>
    match s with
    | .Create _ _ ts _ => some ts
    | _ => none)

/-- The `fetch_max` performed by one received statement on the writer's
timestamp register (`oldest_ts.fetch_max(ts, ..)` for `Create`, nothing
otherwise). -/
def tsStep (a : Int) (s : Statement) : Int :=
  match s with
  | .Create _ _ ts _ => max a ts
  | _ => a

/-- A multi-value wikidata string assembled from a first identifier and a list
of groups `(w1, w2, id)`, each contributing `w1 ++ ";" ++ w2 ++ id`:
the shape `id0 (\s* ; \s* id)+` of `RE_WIKIDATA_MULTI_VALUE`. -/
def mkMultiVal (id0 : Chars) (gs : List (Chars × Chars × Chars)) : Chars :=
  id0 ++ (gs.map (fun g => g.1 ++ ';' :: (g.2.1 ++ g.2.2))).flatten

/-- The pieces `str::split(';')` produces on `mkMultiVal a gs`: each group's
leading whitespace attaches to the previous piece, its trailing whitespace to
its own. -/
def splitPieces (a : Chars) (gs : List (Chars × Chars × Chars)) : List Chars :=
  match gs with
  | [] => [a]
  | g :: gs' => (a ++ g.1) :: splitPieces (g.2.1 ++ g.2.2) gs'

/-- Whether a statement is a `Create`. -/
def isCreate : Statement → Bool
  | .Create _ _ _ _ => true
  | _ => false

/-- The rendered body of a `Create` statement (`[]` otherwise). -/
def createVal : Statement → Chars
  | .Create _ _ _ v => v
  | _ => []

/-! ### Helper lemmas -/

theorem mkClause_ne_nil (p o : Chars) : mkClause p o ≠ [] := by
  unfold mkClause
  exact List.append_ne_nil_of_right_ne_nil _ (by simp)

theorem pushTag_eq_nil_iff (k v : Chars) : pushTag k v = [] ↔ k = lit "created_by" := by
  constructor
  · intro h
    by_contra hk
    unfold pushTag at h
    rw [if_neg hk] at h
    split_ifs at h with h1 h2 h3 h4 h5 <;>
      first
        | exact mkClause_ne_nil _ _ h
        | (revert h
           split <;> intro h <;> exact mkClause_ne_nil _ _ h)
  · intro h
    simp [pushTag, h]

theorem pushAllTags_eq_nil_iff (tags : List (Chars × Chars)) :
    pushAllTags tags = [] ↔ ∀ kv ∈ tags, kv.1 = lit "created_by" := by
  unfold pushAllTags
  rw [List.flatten_eq_nil_iff]
  constructor
  · intro h kv hkv
    exact (pushTag_eq_nil_iff kv.1 kv.2).1 (h _ (List.mem_map_of_mem _ hkv))
  · intro h l hl
    obtain ⟨kv, hkv, rfl⟩ := List.mem_map.1 hl
    exact (pushTag_eq_nil_iff kv.1 kv.2).2 (h kv hkv)

theorem infix_flatten_of_mem {a : Chars} {L : List Chars} (h : a ∈ L) :
    a.IsInfix L.flatten := by
  induction L with
  | nil => cases h
  | cons b L ih =>
    rcases List.mem_cons.1 h with rfl | h'
    · exact ⟨[], L.flatten, by simp⟩
    · obtain ⟨s, t, hst⟩ := ih h'
      exact ⟨b ++ s, t, by simp [← hst]⟩

theorem foldl_wstep_maxTs (m : Nat) (l : List Statement) :
    ∀ st : WState, (l.foldl (wstep m) st).maxTs = l.foldl tsStep st.maxTs := by
  induction l with
  | nil => intro st; rfl
  | cons s l ih =>
    intro st
    rw [List.foldl_cons, List.foldl_cons, ih]
    congr 1
    cases s with
    | Create e id ts val => simp only [wstep, tsStep]; split <;> rfl
    | Skip => rfl
    | Delete e id => rfl

theorem foldl_tsStep_init_le (l : List Statement) (a : Int) : a ≤ l.foldl tsStep a := by
  induction l generalizing a with
  | nil => exact le_refl _
  | cons s l ih =>
    refine le_trans ?_ (ih (tsStep a s))
    cases s <;> simp [tsStep, le_max_left]

theorem foldl_tsStep_le {t : Int} {l : List Statement} (h : t ∈ createTs l) :
    ∀ a, t ≤ l.foldl tsStep a := by
  induction l with
  | nil => cases h
  | cons s l ih =>
    intro a
    cases s with
    | Create e id ts val =>
      rw [createTs, List.filterMap_cons] at h
      simp only [List.mem_cons] at h
      rcases h with rfl | h'
      · rw [List.foldl_cons]
        exact le_trans (le_max_right a t) (foldl_tsStep_init_le l _)
      · exact ih h' _
    | Skip => exact ih h _
    | Delete e id => exact ih h _

theorem tsStep_right_comm (a : Int) (x y : Statement) :
    tsStep (tsStep a x) y = tsStep (tsStep a y) x := by
  cases x <;> cases y <;> simp only [tsStep] <;>
    rw [max_assoc, max_assoc] <;> congr 1 <;> exact max_comm _ _

theorem foldl_tsStep_perm {l l' : List Statement} (p : l.Perm l') (a : Int) :
    l.foldl tsStep a = l'.foldl tsStep a := by
  induction p generalizing a with
  | nil => rfl
  | cons x _ ih => simp only [List.foldl_cons]; exact ih _
  | swap x y l => simp only [List.foldl_cons]; rw [tsStep_right_comm]
  | trans _ _ ih1 ih2 => exact (ih1 a).trans (ih2 a)

theorem foldl_tsStep_eq_init_or_mem (l : List Statement) (a : Int) :
    l.foldl tsStep a = a ∨ l.foldl tsStep a ∈ createTs l := by
  induction l generalizing a with
  | nil => exact Or.inl rfl
  | cons s l ih =>
    cases s with
    | Create e id ts val =>
      rw [List.foldl_cons]
      rcases ih (tsStep a (.Create e id ts val)) with h | h
      · rw [h]
        simp only [tsStep]
        rcases max_choice a ts with h' | h'
        · exact Or.inl h'
        · refine Or.inr ?_
          rw [h', createTs, List.filterMap_cons]
          exact List.mem_cons_self _ _
      · refine Or.inr ?_
        rw [createTs, List.filterMap_cons]
        exact List.mem_cons_of_mem _ h
    | Skip => exact ih a
    | Delete e id => exact ih a

theorem combineAll_fields (l : List Stats) (z : Stats) :
    combineAll z l =
      ⟨z.added_nodes + (l.map (·.added_nodes)).sum,
       z.added_rels + (l.map (·.added_rels)).sum,
       z.added_ways + (l.map (·.added_ways)).sum,
       z.skipped_nodes + (l.map (·.skipped_nodes)).sum,
       z.deleted_nodes + (l.map (·.deleted_nodes)).sum,
       z.deleted_rels + (l.map (·.deleted_rels)).sum,
       z.deleted_ways + (l.map (·.deleted_ways)).sum,
       z.blocks + l.length⟩ := by
  induction l generalizing z with
  | nil => simp [combineAll]
  | cons s l ih =>
    rw [combineAll, List.foldl_cons, ← combineAll, ih]
    simp only [Stats.combine, List.map_cons, List.sum_cons, List.length_cons]
    congr 1 <;> omega

/-! ### C10 -/

/-- C10: for every non-deleted node, `process_node` writes the node's
(lat, lon) pair into the coordinate cache under the node's (usize-cast) id,
whatever the tags are - in particular (second conjunct, a tagless node) also
when the rendered tag body is empty and the returned statement is `Skip`: a
`Skip` result does not mean the cache was left unchanged. -/
theorem node_cache_written_even_on_skip :
    (∀ (st : Stats) (c : CacheM) (id : Int) (tags : List (Chars × Chars)) (lat lon : Chars),
      (processNode st c false id tags lat lon).2.1 (usizeOf id) = some (lat, lon)) ∧
    (processNode zeroStats emptyCache false 7 [] (lit "52.5") (lit "13.4")).2.2 =
      Statement.Skip ∧
    (processNode zeroStats emptyCache false 7 [] (lit "52.5") (lit "13.4")).2.1
      (usizeOf 7) = some (lit "52.5", lit "13.4") := by
  refine ⟨?_, rfl, rfl⟩
  intro st c id tags lat lon
  by_cases hv : (pushAllTags tags).isEmpty <;> simp [processNode, hv, cacheSet]

/-! ### C2 -/

/-- C2 counterexample: combining a single worker `Stats` value (all counters
zero) into the zero run total yields `blocks = 1`, while the field-wise sum of
the block counts of the combined values is `0` - so the run total is NOT the
field-wise sum in the block-count field. -/
theorem stats_blocks_not_fieldwise_sum_cex :
    (combineAll zeroStats [zeroStats]).blocks = 1 ∧
    ([zeroStats].map (fun s => s.blocks)).sum = 0 ∧
    (combineAll zeroStats [zeroStats]).blocks ≠
      ([zeroStats].map (fun s => s.blocks)).sum := by
  exact ⟨rfl, rfl, by decide⟩

/-- C2 (amended): merging `k` independently produced `Stats` values into an
accumulator gives, in each of the seven element counters, the field-wise sum of
the `k` values, while `blocks` instead counts the merge calls (`z.blocks + k`,
each `combine` adds one regardless of the merged value's block count); the
entire result is invariant under permuting the merge order. -/
theorem stats_combine_sums_and_perm (z : Stats) (l l' : List Stats) (p : l.Perm l') :
    ((combineAll z l).added_nodes = z.added_nodes + (l.map (fun s => s.added_nodes)).sum ∧
     (combineAll z l).added_rels = z.added_rels + (l.map (fun s => s.added_rels)).sum ∧
     (combineAll z l).added_ways = z.added_ways + (l.map (fun s => s.added_ways)).sum ∧
     (combineAll z l).skipped_nodes = z.skipped_nodes + (l.map (fun s => s.skipped_nodes)).sum ∧
     (combineAll z l).deleted_nodes = z.deleted_nodes + (l.map (fun s => s.deleted_nodes)).sum ∧
     (combineAll z l).deleted_rels = z.deleted_rels + (l.map (fun s => s.deleted_rels)).sum ∧
     (combineAll z l).deleted_ways = z.deleted_ways + (l.map (fun s => s.deleted_ways)).sum) ∧
    (combineAll z l).blocks = z.blocks + l.length ∧
    combineAll z l = combineAll z l' := by
  have hsum : ∀ f : Stats → Nat, (l.map f).sum = (l'.map f).sum := fun f => (p.map f).sum_eq
  refine ⟨⟨?_, ?_, ?_, ?_, ?_, ?_, ?_⟩, ?_, ?_⟩
  · simp [combineAll_fields]
  · simp [combineAll_fields]
  · simp [combineAll_fields]
  · simp [combineAll_fields]
  · simp [combineAll_fields]
  · simp [combineAll_fields]
  · simp [combineAll_fields]
  · simp [combineAll_fields]
  · rw [combineAll_fields l z, combineAll_fields l' z]
    simp only [Stats.mk.injEq]
    exact ⟨congrArg _ (hsum _), congrArg _ (hsum _), congrArg _ (hsum _), congrArg _ (hsum _),
      congrArg _ (hsum _), congrArg _ (hsum _), congrArg _ (hsum _), congrArg _ p.length_eq⟩

/-- C2 witness: two concrete worker stats merged in both orders. -/
theorem stats_combine_sums_and_perm_witness :
    (combineAll zeroStats [⟨1, 2, 3, 4, 5, 6, 7, 8⟩, ⟨10, 0, 0, 0, 0, 0, 0, 3⟩]).blocks =
      zeroStats.blocks + ([⟨1, 2, 3, 4, 5, 6, 7, 8⟩, ⟨10, 0, 0, 0, 0, 0, 0, 3⟩] : List Stats).length ∧
    combineAll zeroStats [⟨1, 2, 3, 4, 5, 6, 7, 8⟩, ⟨10, 0, 0, 0, 0, 0, 0, 3⟩] =
      combineAll zeroStats [⟨10, 0, 0, 0, 0, 0, 0, 3⟩, ⟨1, 2, 3, 4, 5, 6, 7, 8⟩] :=
  ⟨(stats_combine_sums_and_perm zeroStats
      [⟨1, 2, 3, 4, 5, 6, 7, 8⟩, ⟨10, 0, 0, 0, 0, 0, 0, 3⟩]
      [⟨10, 0, 0, 0, 0, 0, 0, 3⟩, ⟨1, 2, 3, 4, 5, 6, 7, 8⟩] (by decide)).2.1,
   (stats_combine_sums_and_perm zeroStats
      [⟨1, 2, 3, 4, 5, 6, 7, 8⟩, ⟨10, 0, 0, 0, 0, 0, 0, 3⟩]
      [⟨10, 0, 0, 0, 0, 0, 0, 3⟩, ⟨1, 2, 3, 4, 5, 6, 7, 8⟩] (by decide)).2.2⟩

/-! ### C3 -/

/-- C3 counterexample: a single `Create` with a negative timestamp.  The
register starts at 0 and only takes maxima, so the final value is 0, not the
maximum (-7) of the received Create timestamps, and the trailer renders the
epoch instead. -/
theorem writer_final_ts_clamped_cex :
    (writerRun 100 [.Create .Node 1 (-7) (lit "x")]).2 = 0 ∧
    createTs [.Create .Node 1 (-7) (lit "x")] = [-7] ∧
    ((0 : Int) ≠ -7) ∧
    (writerRun 100 [.Create .Node 1 (-7) (lit "x")]).1.getLast? =
      some (lit "osmroot: schema:dateModified 1970-01-01 00:00:00 UTC.\n") := by
  exact ⟨rfl, rfl, by decide, rfl⟩

/-- C3 (amended): after the channel closes the writer's final trailer
timestamp equals the maximum of 0 (the register's initial value) and all
`Create` timestamps received: it is never below 0, it bounds every Create
`ts`, it is 0 or one of them (so with all Create timestamps negative, or none
at all, it is exactly 0), and it is independent of the order in which the
statements arrived. -/
theorem writer_final_ts_max_and_order_free (m : Nat) (l l' : List Statement)
    (p : l.Perm l') :
    (0 : Int) ≤ (writerRun m l).2 ∧
    (∀ t ∈ createTs l, t ≤ (writerRun m l).2) ∧
    ((writerRun m l).2 = 0 ∨ (writerRun m l).2 ∈ createTs l) ∧
    (writerRun m l).2 = (writerRun m l').2 := by
  have hts : ∀ ll : List Statement, (writerRun m ll).2 = ll.foldl tsStep 0 := by
    intro ll
    show (ll.foldl (wstep m) ⟨none, 0, [], 0⟩).maxTs = _
    rw [foldl_wstep_maxTs]
  refine ⟨?_, ?_, ?_, ?_⟩
  · rw [hts]
    exact foldl_tsStep_init_le l 0
  · intro t ht
    rw [hts]
    exact foldl_tsStep_le ht 0
  · rw [hts]
    exact foldl_tsStep_eq_init_or_mem l 0
  · rw [hts, hts]
    exact foldl_tsStep_perm p 0

/-- C3 witness: a concrete three-statement sequence and a permutation of it. -/
theorem writer_final_ts_max_and_order_free_witness :
    (0 : Int) ≤ (writerRun 10 [.Skip, .Create .Node 1 5 (lit "x"), .Delete .Way 2]).2 ∧
    (5 : Int) ≤ (writerRun 10 [.Skip, .Create .Node 1 5 (lit "x"), .Delete .Way 2]).2 ∧
    (writerRun 10 [.Skip, .Create .Node 1 5 (lit "x"), .Delete .Way 2]).2 =
      (writerRun 10 [.Create .Node 1 5 (lit "x"), .Delete .Way 2, .Skip]).2 :=
  ⟨(writer_final_ts_max_and_order_free 10 _
      [.Create .Node 1 5 (lit "x"), .Delete .Way 2, .Skip] (by decide)).1,
   (writer_final_ts_max_and_order_free 10 _
      [.Create .Node 1 5 (lit "x"), .Delete .Way 2, .Skip] (by decide)).2.1 5 (by decide),
   (writer_final_ts_max_and_order_free 10 _ _ (by decide)).2.2.2⟩

/-! ### C4 -/

/-- C4: the writer emits no namespace-prefix header.  For a single concrete
`Create`, the first produced data file starts directly with the element header
line `osmnode:42` followed by the body - `new_gz_file` only creates the
compressed file and the loop writes `{elem}:{id}\n{val}` straight away, so no
file begins with an `@prefix` block. -/
theorem writer_first_file_has_no_header :
    (writerRun 1000000 [.Create .Node 42 1000 (lit "osmt:name \"Cafe\";\n")]).1 =
      [lit "osmnode:42\nosmt:name \"Cafe\";\n\n",
       lit "osmroot: schema:dateModified 1970-01-01 00:00:01 UTC.\n"] ∧
    (lit "@prefix").isPrefixOf (lit "osmnode:42\nosmt:name \"Cafe\";\n\n") = false := by
  exact ⟨rfl, by decide⟩

/-! ### C6 -/

/-- C6: a deleted relation does increment `deleted_rels`, but the emitted
`Delete` statement carries `elem = Element::Way` (rendering to the `osmway`
namespace), not `Element::Relation`/`osmrel` - evaluated on a concrete deleted
relation with id 5. -/
theorem relation_deleted_emits_way_elem :
    (onRelation zeroStats ⟨5, ⟨true, 1, lit "bob", 1000, 9⟩, [], []⟩).2 =
      Statement.Delete Element.Way 5 ∧
    (onRelation zeroStats ⟨5, ⟨true, 1, lit "bob", 1000, 9⟩, [], []⟩).1.deleted_rels = 1 ∧
    elementShow Element.Way = lit "osmway" ∧
    elementShow Element.Relation = lit "osmrel" ∧
    Element.Way ≠ Element.Relation := by
  exact ⟨rfl, rfl, rfl, rfl, by decide⟩

/-! ### C7 -/

/-- C7: `to_utc` passes `ts % 1000` - a millisecond remainder - as
`timestamp_opt`'s NANOSECOND argument: `to_utc(1)` denotes 1 nanosecond past
the epoch instead of the claimed 1 millisecond (= 1000000 ns); moreover for
`ts = -1` the `as u32` cast wraps the remainder to 4294967295 ≥ 2·10^9, so the
conversion returns `None` and the `.unwrap()` panics - it does not succeed for
every `i64`.  The rendered form is also chrono's default
`"1970-01-01 00:00:00 UTC"` rather than the ISO-8601 `%Y-%m-%dT%H:%M:%SZ`
shape documented in the comment above `XsdDateTime`. -/
theorem to_utc_millis_passed_as_nanos :
    toUtc 1 = some (0, 1) ∧ (1 : Nat) ≠ 1000000 ∧
    toUtc (-1) = none ∧
    xsdDateTime 0 = lit "\"1970-01-01 00:00:00 UTC\"^^xsd:dateTime" := by
  exact ⟨rfl, by decide, rfl, rfl⟩

/-! ### C1 -/

set_option maxRecDepth 4000 in
/-- C1 counterexample: a non-deleted relation with one member (way 77) whose
role is the EMPTY string still gets both member clauses - the body ends with
`osmm:has osmway:77;` AND `osmway:77 "";` - while the claim says an empty role
yields only the first clause. -/
theorem relation_empty_role_second_clause_cex :
    (onRelation zeroStats ⟨123, ⟨false, 1, lit "bob", 1000, 5⟩, [], [⟨.Way, 77, []⟩]⟩).2 =
      Statement.Create Element.Relation 123 1000
        (lit "osmm:type \"r\";\nosmm:version \"1\"^^xsd:integer;\nosmm:user \"bob\";\nosmm:timestamp \"1970-01-01 00:00:01 UTC\"^^xsd:dateTime;\nosmm:changeset \"5\"^^xsd:integer.\nosmm:has osmway:77;\nosmway:77 \"\";\n") ∧
    (lit "osmway:77 \"\";\n").IsInfix
      (lit "osmm:type \"r\";\nosmm:version \"1\"^^xsd:integer;\nosmm:user \"bob\";\nosmm:timestamp \"1970-01-01 00:00:01 UTC\"^^xsd:dateTime;\nosmm:changeset \"5\"^^xsd:integer.\nosmm:has osmway:77;\nosmway:77 \"\";\n") := by
  exact ⟨rfl, by decide⟩

/-- C1 (amended): for every non-deleted relation and every member, the
transform emits BOTH clauses unconditionally: the `osmm:has` reference and the
role association (which renders an empty role as the quoted empty string). -/
theorem relation_member_both_clauses (st : Stats) (rel : RelationM)
    (h : rel.info.deleted = false) (m : RelMemberM) (hm : m ∈ rel.members) :
    (onRelation st rel).2 =
      Statement.Create Element.Relation rel.id rel.info.milli_timestamp
        (createVal (onRelation st rel).2) ∧
    (mkClause (lit "osmm:has") (xsdRelMember m)).IsInfix
      (createVal (onRelation st rel).2) ∧
    (mkClause (xsdRelMember m) (jsonStr m.role)).IsInfix
      (createVal (onRelation st rel).2) := by
  have hrel : (onRelation st rel).2 =
      Statement.Create Element.Relation rel.id rel.info.milli_timestamp
        (pushAllTags rel.tags ++ mkClause (lit "osmm:type") (xsdElement .Relation) ++
          pushMetadata rel.info.version rel.info.user rel.info.milli_timestamp
            rel.info.changeset ++ memberClauses rel.members) := by
    simp [onRelation, h]
  rw [hrel]
  have hchunk :
      (mkClause (lit "osmm:has") (xsdRelMember m) ++
        mkClause (xsdRelMember m) (jsonStr m.role)).IsInfix (memberClauses rel.members) :=
    infix_flatten_of_mem (List.mem_map_of_mem _ hm)
  have hmemb : (memberClauses rel.members).IsInfix
      (pushAllTags rel.tags ++ mkClause (lit "osmm:type") (xsdElement .Relation) ++
        pushMetadata rel.info.version rel.info.user rel.info.milli_timestamp
          rel.info.changeset ++ memberClauses rel.members) :=
    ⟨pushAllTags rel.tags ++ mkClause (lit "osmm:type") (xsdElement .Relation) ++
      pushMetadata rel.info.version rel.info.user rel.info.milli_timestamp
        rel.info.changeset, [], by simp⟩
  refine ⟨rfl, ?_, ?_⟩
  · exact (List.IsInfix.trans ⟨[], mkClause (xsdRelMember m) (jsonStr m.role), by simp⟩
      hchunk).trans hmemb
  · exact (List.IsInfix.trans ⟨mkClause (lit "osmm:has") (xsdRelMember m), [], by simp⟩
      hchunk).trans hmemb

/-- C1 witness: the spec's own example - one member, way 77, role "outer". -/
theorem relation_member_both_clauses_witness :
    (onRelation zeroStats ⟨123, ⟨false, 1, lit "bob", 1000, 5⟩, [],
        [⟨.Way, 77, lit "outer"⟩]⟩).2 =
      Statement.Create Element.Relation 123 1000
        (createVal (onRelation zeroStats ⟨123, ⟨false, 1, lit "bob", 1000, 5⟩, [],
          [⟨.Way, 77, lit "outer"⟩]⟩).2) ∧
    (mkClause (lit "osmm:has") (xsdRelMember ⟨.Way, 77, lit "outer"⟩)).IsInfix
      (createVal (onRelation zeroStats ⟨123, ⟨false, 1, lit "bob", 1000, 5⟩, [],
        [⟨.Way, 77, lit "outer"⟩]⟩).2) ∧
    (mkClause (xsdRelMember ⟨.Way, 77, lit "outer"⟩)
        (jsonStr (lit "outer"))).IsInfix
      (createVal (onRelation zeroStats ⟨123, ⟨false, 1, lit "bob", 1000, 5⟩, [],
        [⟨.Way, 77, lit "outer"⟩]⟩).2) :=
  relation_member_both_clauses zeroStats
    ⟨123, ⟨false, 1, lit "bob", 1000, 5⟩, [], [⟨.Way, 77, lit "outer"⟩]⟩ rfl
    ⟨.Way, 77, lit "outer"⟩ (by decide)

/-! ### C5 -/

/-- C5 counterexample: `StringBuf::add_tags` - one of the two tag-rendering
code paths the claim covers - renders the bad-key fallback with the KEY as its
object, not the value: for the invalid key `a b` with value `v` it emits
`osmm:badkey "a b";`, not `osmm:badkey "v";`. -/
theorem add_tags_bad_key_renders_key_cex :
    addTagsTag (lit "a b") (lit "v") = mkClause (lit "osmm:badkey") (jsonStr (lit "a b")) ∧
    addTagsTag (lit "a b") (lit "v") ≠ mkClause (lit "osmm:badkey") (jsonStr (lit "v")) ∧
    addTags [(lit "a b", lit "v")] = mkClause (lit "osmm:badkey") (jsonStr (lit "a b")) := by
  exact ⟨by decide, by decide, by decide⟩

/-- C5 (amended): in the transform pipeline's tag renderer,
`Parser::push_all_tags`, a tag whose key fails the local-name pattern yields
exactly one `osmm:badkey` clause whose object is the original VALUE as a
quoted string, and nothing else; the duplicated `StringBuf::add_tags` instead
emits the key there (see the counterexample). -/
theorem bad_key_renders_value (key val : Chars) (h : simpleLocalName key = false) :
    pushTag key val = mkClause (lit "osmm:badkey") (jsonStr val) := by
  have hck : key ≠ lit "created_by" := by
    intro he
    rw [he] at h
    exact absurd h (by decide)
  simp [pushTag, hck, h]

/-- C5 witness: the invalid key `a b` (space fails the local-name pattern). -/
theorem bad_key_renders_value_witness :
    pushTag (lit "a b") (lit "v") = mkClause (lit "osmm:badkey") (jsonStr (lit "v")) :=
  bad_key_renders_value (lit "a b") (lit "v") (by decide)

/-! ### C8 -/

/-- C8 counterexample: a non-deleted node with ONE tag - the ignored
`created_by` key - yields `Skip`, though the claim says a node with at least
one tag yields `Create`. -/
theorem node_created_by_only_skips_cex :
    (processNode zeroStats emptyCache false 1 [(lit "created_by", lit "iD")]
        (lit "1") (lit "2")).2.2 = Statement.Skip ∧
    [(lit "created_by", lit "iD")].length = 1 := by
  exact ⟨rfl, rfl⟩

/-- C8 (amended): a non-deleted node yields `Skip` exactly when no tag
survives rendering - i.e. every tag key is the ignored `created_by` (zero tags
included) - and otherwise yields `Create` for a Node whose body is the
rendered tags followed by the `osmm:loc` point literal (longitude first, see
`xsdPoint`) and the `osmm:type` marker `"n"`. -/
theorem node_skip_iff_no_surviving_tags (st : Stats) (c : CacheM) (id : Int)
    (tags : List (Chars × Chars)) (lat lon : Chars) :
    ((processNode st c false id tags lat lon).2.2 = Statement.Skip ↔
      ∀ kv ∈ tags, kv.1 = lit "created_by") ∧
    ((¬ ∀ kv ∈ tags, kv.1 = lit "created_by") →
      (processNode st c false id tags lat lon).2.2 =
        Statement.Create Element.Node id 0
          (pushAllTags tags ++ mkClause (lit "osmm:loc") (xsdPoint lat lon) ++
            mkClause (lit "osmm:type") (xsdElement Element.Node))) := by
  by_cases hv : (pushAllTags tags).isEmpty
  · have h1 : pushAllTags tags = [] := by rwa [List.isEmpty_iff] at hv
    have hall : ∀ kv ∈ tags, kv.1 = lit "created_by" := (pushAllTags_eq_nil_iff tags).1 h1
    have hres : (processNode st c false id tags lat lon).2.2 = Statement.Skip := by
      simp [processNode, hv]
    exact ⟨⟨fun _ => hall, fun _ => hres⟩, fun hno => absurd hall hno⟩
  · have h1 : pushAllTags tags ≠ [] := by
      intro he
      rw [he] at hv
      exact hv rfl
    have hno : ¬ ∀ kv ∈ tags, kv.1 = lit "created_by" :=
      fun hall => h1 ((pushAllTags_eq_nil_iff tags).2 hall)
    have hres : (processNode st c false id tags lat lon).2.2 =
        Statement.Create Element.Node id 0
          (pushAllTags tags ++ mkClause (lit "osmm:loc") (xsdPoint lat lon) ++
            mkClause (lit "osmm:type") (xsdElement Element.Node)) := by
      simp [processNode, hv]
    refine ⟨⟨fun he => ?_, fun hall => absurd hall hno⟩, fun _ => hres⟩
    rw [hres] at he
    exact Statement.noConfusion he

/-- C8 witness: the spec's example node (id 42, lat 52.5, lon 13.4, one `name`
tag) creates a body with the longitude-first point literal and `"n"` marker;
and a tagless node maps to `Skip` through the iff. -/
theorem node_skip_iff_no_surviving_tags_witness :
    (processNode zeroStats emptyCache false 42 [(lit "name", lit "Cafe")]
        (lit "52.5") (lit "13.4")).2.2 =
      Statement.Create Element.Node 42 0
        (lit "osmt:name \"Cafe\";\nosmm:loc \"Point(13.4 52.5)\"^^geo:wktLiteral;\nosmm:type \"n\";\n") ∧
    ((processNode zeroStats emptyCache false 7 [] (lit "1") (lit "2")).2.2 =
        Statement.Skip ↔ ∀ kv ∈ ([] : List (Chars × Chars)), kv.1 = lit "created_by") := by
  constructor
  · have h := (node_skip_iff_no_surviving_tags zeroStats emptyCache 42
      [(lit "name", lit "Cafe")] (lit "52.5") (lit "13.4")).2 (by decide)
    exact h.trans (by decide)
  · exact (node_skip_iff_no_surviving_tags zeroStats emptyCache 7 [] (lit "1") (lit "2")).1

/-! ### C9: whitespace / digit character facts -/

theorem ws_toNat {c : Char} (h : isWsChar c = true) :
    c.toNat = 32 ∨ c.toNat = 9 ∨ c.toNat = 10 ∨ c.toNat = 13 ∨ c.toNat = 11 ∨ c.toNat = 12 := by
  simp only [isWsChar, Bool.or_eq_true, decide_eq_true_eq] at h
  rcases h with ((((h | h) | h) | h) | h) | h
  · exact Or.inl (by rw [h]; rfl)
  · exact Or.inr (Or.inl (by rw [h]; rfl))
  · exact Or.inr (Or.inr (Or.inl (by rw [h]; rfl)))
  · exact Or.inr (Or.inr (Or.inr (Or.inl (by rw [h]; rfl))))
  · exact Or.inr (Or.inr (Or.inr (Or.inr (Or.inl h))))
  · exact Or.inr (Or.inr (Or.inr (Or.inr (Or.inr h))))

theorem ws_not_digitChar {c : Char} (h : isWsChar c = true) : isDigitChar c = false := by
  have hn := ws_toNat h
  simp only [isDigitChar, decide_eq_false_iff_not, not_and, not_le]
  omega

theorem ws_ne_semi {c : Char} (h : isWsChar c = true) : c ≠ ';' := by
  intro he
  have hn := ws_toNat h
  rw [he] at hn
  simp at hn

theorem ws_ne_q {c : Char} (h : isWsChar c = true) : c ≠ 'Q' := by
  intro he
  have hn := ws_toNat h
  rw [he] at hn
  simp at hn

theorem digit_not_ws {c : Char} (h : isDigitChar c = true) : isWsChar c = false := by
  cases hw : isWsChar c with
  | false => rfl
  | true =>
    have hn := ws_toNat hw
    simp only [isDigitChar, decide_eq_true_eq] at h
    omega

theorem nonzero_isDigit {c : Char} (h : isNonzeroDigit c = true) : isDigitChar c = true := by
  simp only [isNonzeroDigit, decide_eq_true_eq] at h
  simp only [isDigitChar, decide_eq_true_eq]
  omega

theorem ws_list_no_semi {l : Chars} (h : l.all isWsChar = true) : ';' ∉ l := by
  intro hm
  exact ws_ne_semi (List.all_eq_true.1 h _ hm) rfl

/-! ### C9: DFA lemmas for `RE_WIKIDATA_MULTI_VALUE` -/

theorem wd_digits (ds : Chars) :
    ∀ (n : Nat) (sep : Bool), ds.all isDigitChar = true → n + ds.length ≤ 18 →
      ds.foldl wdStep ⟨.inDigits n, sep⟩ = ⟨.inDigits (n + ds.length), sep⟩ := by
  induction ds with
  | nil => intro n sep _ _; rfl
  | cons c ds ih =>
    intro n sep hall hlen
    rw [List.all_cons, Bool.and_eq_true] at hall
    have hstep : wdStep ⟨.inDigits n, sep⟩ c = ⟨.inDigits (n + 1), sep⟩ := by
      have hn : n < 18 := by
        have := List.length_cons c ds ▸ hlen
        omega
      simp [wdStep, hall.1, hn]
    rw [List.foldl_cons, hstep, ih (n + 1) sep hall.2 (by simp at hlen; omega)]
    have : n + 1 + ds.length = n + (c :: ds).length := by simp; omega
    rw [this]

theorem wd_from_needD {c1 : Char} {cs : Chars} {sep : Bool}
    (h1 : isNonzeroDigit c1 = true) (h2 : cs.all isDigitChar = true)
    (h3 : cs.length ≤ 18) :
    (c1 :: cs).foldl wdStep ⟨.needD, sep⟩ = ⟨.inDigits cs.length, sep⟩ := by
  rw [List.foldl_cons]
  have hstep : wdStep ⟨.needD, sep⟩ c1 = ⟨.inDigits 0, sep⟩ := by simp [wdStep, h1]
  rw [hstep, wd_digits cs 0 sep h2 (by omega), Nat.zero_add]

theorem wdSingle_parts {idc : Chars} (h : wdSingle idc = true) :
    ∃ c1 cs, idc = 'Q' :: c1 :: cs ∧ isNonzeroDigit c1 = true ∧
      cs.all isDigitChar = true ∧ cs.length ≤ 18 := by
  match idc, h with
  | c0 :: c1 :: cs, h =>
    simp only [wdSingle, Bool.and_eq_true, decide_eq_true_eq] at h
    exact ⟨c1, cs, by rw [h.1.1.1], h.1.1.2, h.1.2, h.2⟩

theorem wd_id_start {idc : Chars} (h : wdSingle idc = true) (sep : Bool) :
    idc.foldl wdStep ⟨.needQ, sep⟩ = ⟨.inDigits (idc.length - 2), sep⟩ := by
  obtain ⟨c1, cs, rfl, h1, h2, h3⟩ := wdSingle_parts h
  rw [List.foldl_cons]
  have hstep : wdStep ⟨.needQ, sep⟩ 'Q' = ⟨.needD, sep⟩ := by simp [wdStep]
  rw [hstep, wd_from_needD h1 h2 h3]
  simp

theorem wd_id_after {idc : Chars} (h : wdSingle idc = true) (sep : Bool) :
    idc.foldl wdStep ⟨.afterSemi, sep⟩ = ⟨.inDigits (idc.length - 2), sep⟩ := by
  obtain ⟨c1, cs, rfl, h1, h2, h3⟩ := wdSingle_parts h
  rw [List.foldl_cons]
  have hstep : wdStep ⟨.afterSemi, sep⟩ 'Q' = ⟨.needD, sep⟩ := by simp [wdStep]
  rw [hstep, wd_from_needD h1 h2 h3]
  simp

theorem ws_fold_needSemi {w : Chars} {sep : Bool} (hw : w.all isWsChar = true) :
    w.foldl wdStep ⟨.needSemi, sep⟩ = ⟨.needSemi, sep⟩ := by
  induction w with
  | nil => rfl
  | cons c w ih =>
    rw [List.all_cons, Bool.and_eq_true] at hw
    have hstep : wdStep ⟨.needSemi, sep⟩ c = ⟨.needSemi, sep⟩ := by
      simp [wdStep, ws_ne_semi hw.1, hw.1]
    rw [List.foldl_cons, hstep, ih hw.2]

theorem ws_fold_afterSemi {w : Chars} {sep : Bool} (hw : w.all isWsChar = true) :
    w.foldl wdStep ⟨.afterSemi, sep⟩ = ⟨.afterSemi, sep⟩ := by
  induction w with
  | nil => rfl
  | cons c w ih =>
    rw [List.all_cons, Bool.and_eq_true] at hw
    have hstep : wdStep ⟨.afterSemi, sep⟩ c = ⟨.afterSemi, sep⟩ := by
      simp [wdStep, ws_ne_q hw.1, hw.1]
    rw [List.foldl_cons, hstep, ih hw.2]

theorem wd_ws_semi {w rest : Chars} {n : Nat} {sep : Bool} (hw : w.all isWsChar = true) :
    (w ++ ';' :: rest).foldl wdStep ⟨.inDigits n, sep⟩ =
      rest.foldl wdStep ⟨.afterSemi, true⟩ := by
  cases w with
  | nil =>
    rw [List.nil_append, List.foldl_cons]
    have hstep : wdStep ⟨.inDigits n, sep⟩ ';' = ⟨.afterSemi, true⟩ := by
      simp [wdStep, isDigitChar]
    rw [hstep]
  | cons c w =>
    rw [List.all_cons, Bool.and_eq_true] at hw
    have hstep : wdStep ⟨.inDigits n, sep⟩ c = ⟨.needSemi, sep⟩ := by
      simp [wdStep, ws_not_digitChar hw.1, ws_ne_semi hw.1, hw.1]
    rw [List.cons_append, List.foldl_cons, hstep, List.foldl_append,
      ws_fold_needSemi hw.2, List.foldl_cons]
    have hstep2 : wdStep ⟨.needSemi, sep⟩ ';' = ⟨.afterSemi, true⟩ := by simp [wdStep]
    rw [hstep2]

theorem wd_tail (gs : List (Chars × Chars × Chars)) :
    ∀ (n : Nat) (sep : Bool), gs ≠ [] →
      (∀ g ∈ gs, g.1.all isWsChar = true ∧ g.2.1.all isWsChar = true ∧
        wdSingle g.2.2 = true) →
      ∃ k, ((gs.map (fun g => g.1 ++ ';' :: (g.2.1 ++ g.2.2))).flatten).foldl wdStep
          ⟨.inDigits n, sep⟩ = ⟨.inDigits k, true⟩ := by
  induction gs with
  | nil => intro n sep h _; exact absurd rfl h
  | cons g gs ih =>
    intro n sep _ hall
    obtain ⟨hw1, hw2, hid⟩ := hall g (List.mem_cons_self g gs)
    rw [List.map_cons, List.flatten_cons, List.foldl_append, wd_ws_semi hw1,
      List.foldl_append, ws_fold_afterSemi hw2, wd_id_after hid]
    cases gs with
    | nil => exact ⟨g.2.2.length - 2, rfl⟩
    | cons g' gs' =>
      exact ih (g.2.2.length - 2) true (by simp)
        (fun x hx => hall x (List.mem_cons_of_mem g hx))

theorem wdMulti_mk {id0 : Chars} {gs : List (Chars × Chars × Chars)}
    (h0 : wdSingle id0 = true) (hne : gs ≠ [])
    (hall : ∀ g ∈ gs, g.1.all isWsChar = true ∧ g.2.1.all isWsChar = true ∧
      wdSingle g.2.2 = true) :
    wdMulti (mkMultiVal id0 gs) = true := by
  unfold wdMulti mkMultiVal
  rw [List.foldl_append, wd_id_start h0]
  obtain ⟨k, hk⟩ := wd_tail gs (id0.length - 2) false hne hall
  rw [hk]
  rfl

theorem wdSingle_no_semi {l : Chars} (h : wdSingle l = true) : ';' ∉ l := by
  obtain ⟨c1, cs, rfl, h1, h2, _⟩ := wdSingle_parts h
  intro hm
  rcases List.mem_cons.1 hm with he | hm
  · exact absurd he.symm (by decide)
  · rcases List.mem_cons.1 hm with he | hm
    · rw [← he] at h1
      exact absurd h1 (by decide)
    · have := List.all_eq_true.1 h2 _ hm
      exact absurd this (by decide)

theorem mk_has_semi (id0 : Chars) (g : Chars × Chars × Chars)
    (gs : List (Chars × Chars × Chars)) : ';' ∈ mkMultiVal id0 (g :: gs) := by
  unfold mkMultiVal
  refine List.mem_append_right _ ?_
  rw [List.map_cons, List.flatten_cons]
  exact List.mem_append_left _ (List.mem_append_right _ (List.mem_cons_self _ _))

theorem wdSingle_mk_false (id0 : Chars) (g : Chars × Chars × Chars)
    (gs : List (Chars × Chars × Chars)) : wdSingle (mkMultiVal id0 (g :: gs)) = false := by
  cases hs : wdSingle (mkMultiVal id0 (g :: gs)) with
  | false => rfl
  | true => exact absurd (mk_has_semi id0 g gs) (wdSingle_no_semi hs)

/-! ### C9: split and trim lemmas -/

theorem splitSemi_no_semi {a : Chars} (h : ';' ∉ a) : splitSemi a = [a] := by
  induction a with
  | nil => rfl
  | cons c a ih =>
    have hc : c ≠ ';' := fun he => h (he ▸ List.mem_cons_self c a)
    rw [splitSemi, if_neg hc, ih (fun hm => h (List.mem_cons_of_mem c hm))]

theorem splitSemi_append {a rest : Chars} (h : ';' ∉ a) :
    splitSemi (a ++ ';' :: rest) = a :: splitSemi rest := by
  induction a with
  | nil => rw [List.nil_append, splitSemi, if_pos rfl]
  | cons c a ih =>
    have hc : c ≠ ';' := fun he => h (he ▸ List.mem_cons_self c a)
    rw [List.cons_append, splitSemi, if_neg hc,
      ih (fun hm => h (List.mem_cons_of_mem c hm))]

theorem splitSemi_mk (gs : List (Chars × Chars × Chars)) :
    ∀ a : Chars, ';' ∉ a →
      (∀ g ∈ gs, ';' ∉ g.1 ∧ ';' ∉ g.2.1 ∧ ';' ∉ g.2.2) →
      splitSemi (a ++ (gs.map (fun g => g.1 ++ ';' :: (g.2.1 ++ g.2.2))).flatten) =
        splitPieces a gs := by
  induction gs with
  | nil =>
    intro a ha _
    rw [List.map_nil, List.flatten_nil, List.append_nil, splitPieces, splitSemi_no_semi ha]
  | cons g gs ih =>
    intro a ha hall
    obtain ⟨h1, h2, h3⟩ := hall g (List.mem_cons_self g gs)
    have hassoc :
        a ++ ((g :: gs).map (fun g => g.1 ++ ';' :: (g.2.1 ++ g.2.2))).flatten =
          (a ++ g.1) ++ ';' :: ((g.2.1 ++ g.2.2) ++
            (gs.map (fun g => g.1 ++ ';' :: (g.2.1 ++ g.2.2))).flatten) := by
      simp [List.append_assoc]
    rw [hassoc, splitSemi_append (by
      intro hm
      rcases List.mem_append.1 hm with hm | hm
      · exact ha hm
      · exact h1 hm)]
    rw [ih (g.2.1 ++ g.2.2)
      (by
        intro hm
        rcases List.mem_append.1 hm with hm | hm
        · exact h2 hm
        · exact h3 hm)
      (fun x hx => hall x (List.mem_cons_of_mem g hx))]
    rfl

theorem dropWhile_ws_append {w rest : Chars} (hw : w.all isWsChar = true) :
    (w ++ rest).dropWhile isWsChar = rest.dropWhile isWsChar := by
  induction w with
  | nil => rfl
  | cons c w ih =>
    rw [List.all_cons, Bool.and_eq_true] at hw
    rw [List.cons_append, List.dropWhile_cons_of_pos hw.1, ih hw.2]

theorem trim_padded {w w' idc : Chars} (hw : w.all isWsChar = true)
    (hw' : w'.all isWsChar = true) (hid : wdSingle idc = true) :
    trimChars (w ++ (idc ++ w')) = idc := by
  obtain ⟨c1, cs, rfl, h1, h2, _⟩ := wdSingle_parts hid
  unfold trimChars
  rw [dropWhile_ws_append hw, List.cons_append,
    List.dropWhile_cons_of_neg (by simp [isWsChar])]
  have hgoal : 'Q' :: (c1 :: cs ++ w') = ('Q' :: c1 :: cs) ++ w' := rfl
  rw [hgoal]
  have hrev : (('Q' :: c1 :: cs) ++ w').reverse = w'.reverse ++ ('Q' :: c1 :: cs).reverse := by
    rw [List.reverse_append]
  rw [hrev, dropWhile_ws_append (by rwa [List.all_reverse])]
  have hident : (('Q' :: c1 :: cs).reverse).dropWhile isWsChar = ('Q' :: c1 :: cs).reverse := by
    cases hcs : cs.reverse with
    | nil =>
      have : cs = [] := by simpa using congrArg List.reverse hcs
      subst this
      exact List.dropWhile_cons_of_neg (by
        rw [Bool.not_eq_true]
        exact digit_not_ws (nonzero_isDigit h1))
    | cons d t =>
      have hd : d ∈ cs := by
        have : d ∈ cs.reverse := hcs ▸ List.mem_cons_self d t
        rwa [List.mem_reverse] at this
      have hrl : ('Q' :: c1 :: cs).reverse = d :: (t ++ [c1, 'Q']) := by
        rw [List.reverse_cons, List.reverse_cons, hcs]
        simp
      rw [hrl]
      refine List.dropWhile_cons_of_neg ?_
      rw [Bool.not_eq_true]
      exact digit_not_ws (List.all_eq_true.1 h2 _ hd)
  rw [hident, List.reverse_reverse]

theorem pieces_trim (gs : List (Chars × Chars × Chars)) :
    ∀ w0 idc : Chars, w0.all isWsChar = true → wdSingle idc = true →
      (∀ g ∈ gs, g.1.all isWsChar = true ∧ g.2.1.all isWsChar = true ∧
        wdSingle g.2.2 = true) →
      (splitPieces (w0 ++ idc) gs).map trimChars = idc :: gs.map (fun g => g.2.2) := by
  induction gs with
  | nil =>
    intro w0 idc hw0 hid _
    rw [splitPieces, List.map_cons, List.map_nil, List.map_nil]
    have : w0 ++ idc = w0 ++ (idc ++ []) := by rw [List.append_nil]
    rw [this, trim_padded hw0 (by rfl) hid]
  | cons g gs ih =>
    intro w0 idc hw0 hid hall
    obtain ⟨h1, h2, h3⟩ := hall g (List.mem_cons_self g gs)
    rw [splitPieces, List.map_cons]
    have hfirst : trimChars ((w0 ++ idc) ++ g.1) = idc := by
      rw [List.append_assoc]
      exact trim_padded hw0 h1 hid
    rw [hfirst, ih g.2.1 g.2.2 h2 h3 (fun x hx => hall x (List.mem_cons_of_mem g hx)),
      List.map_cons]

/-! ### C9 -/

/-- C9 counterexample: the value `Q1;Q2 ` - a semicolon-separated list of two
valid identifiers with whitespace around (after) the second - is NOT matched by
`RE_WIKIDATA_MULTI_VALUE` (whose `\s*` is only adjacent to the `;`), so the tag
falls through to the generic quoted-string clause instead of the claimed
comma-joined reference list. -/
theorem wikidata_trailing_ws_generic_cex :
    pushTag (lit "wikidata") (lit "Q1;Q2 ") =
      mkClause (lit "osmt:wikidata") (jsonStr (lit "Q1;Q2 ")) ∧
    wdSingle (lit "Q1") = true ∧ wdSingle (lit "Q2") = true ∧
    pushTag (lit "wikidata") (lit "Q1;Q2 ") ≠
      mkClause (lit "osmt:wikidata") (commaJoin [lit "wd:Q1", lit "wd:Q2"]) := by
  exact ⟨by decide, by decide, by decide, by decide⟩

/-- C9 (amended): for a tag whose key passes the local-name pattern and
contains `wikidata`, and whose value is a semicolon-separated list of n ≥ 2
valid identifiers in which whitespace may appear only around the separators
(none before the first or after the last identifier - the anchored regex
rejects those, see the counterexample), rendering emits a single clause whose
object comma-joins the n `wd:` references in input order; and any value that
is neither a single valid identifier nor such a list renders as a generic
quoted string. -/
theorem wikidata_multi_comma_joined (key id0 : Chars)
    (gs : List (Chars × Chars × Chars))
    (hkey : simpleLocalName key = true) (hwd : hasSubstr (lit "wikidata") key = true)
    (h0 : wdSingle id0 = true) (hne : gs ≠ [])
    (hall : ∀ g ∈ gs, g.1.all isWsChar = true ∧ g.2.1.all isWsChar = true ∧
      wdSingle g.2.2 = true) :
    pushTag key (mkMultiVal id0 gs) =
      mkClause (lit "osmt:" ++ key)
        (commaJoin ((id0 :: gs.map (fun g => g.2.2)).map (fun i => lit "wd:" ++ i))) ∧
    (∀ val, wdSingle val = false → wdMulti val = false →
      pushTag key val = mkClause (lit "osmt:" ++ key) (jsonStr val)) := by
  have hck : key ≠ lit "created_by" := by
    intro he
    rw [he] at hwd
    exact absurd hwd (by decide)
  constructor
  · have hsingle : wdSingle (mkMultiVal id0 gs) = false := by
      cases gs with
      | nil => exact absurd rfl hne
      | cons g gs' => exact wdSingle_mk_false id0 g gs'
    have hmulti : wdMulti (mkMultiVal id0 gs) = true := wdMulti_mk h0 hne hall
    have hsplit : splitSemi (mkMultiVal id0 gs) = splitPieces id0 gs := by
      unfold mkMultiVal
      exact splitSemi_mk gs id0 (wdSingle_no_semi h0)
        (fun g hg => ⟨ws_list_no_semi (hall g hg).1, ws_list_no_semi (hall g hg).2.1,
          wdSingle_no_semi (hall g hg).2.2⟩)
    have htrim : (splitPieces id0 gs).map trimChars = id0 :: gs.map (fun g => g.2.2) := by
      have h := pieces_trim gs [] id0 rfl h0 hall
      rwa [List.nil_append] at h
    have hfun : (fun v => lit "wd:" ++ trimChars v) =
        (fun i => lit "wd:" ++ i) ∘ trimChars := rfl
    simp only [pushTag, if_neg hck, hkey, not_true_eq_false, Bool.false_eq_true,
      if_false, hwd, if_true, hsingle, hmulti, hfun]
    rw [← List.map_map, hsplit, htrim]
  · intro val h1 h2
    simp only [pushTag, if_neg hck, hkey, not_true_eq_false, Bool.false_eq_true,
      if_false, hwd, if_true, h1, h2]

/-- C9 witness: key `wikidata`, value `Q1 ; Q42` (whitespace around the
separator) renders the comma-joined pair; value `Qx` (neither shape) renders
as a quoted string. -/
theorem wikidata_multi_comma_joined_witness :
    pushTag (lit "wikidata") (mkMultiVal (lit "Q1") [(lit " ", lit " ", lit "Q42")]) =
      mkClause (lit "osmt:" ++ lit "wikidata")
        (commaJoin ((lit "Q1" :: ([(lit " ", lit " ", lit "Q42")].map
          (fun g : Chars × Chars × Chars => g.2.2))).map (fun i => lit "wd:" ++ i))) ∧
    pushTag (lit "wikidata") (lit "Qx") =
      mkClause (lit "osmt:" ++ lit "wikidata") (jsonStr (lit "Qx")) :=
  ⟨(wikidata_multi_comma_joined (lit "wikidata") (lit "Q1")
      [(lit " ", lit " ", lit "Q42")] (by decide) (by decide) (by decide)
      (by simp) (by decide)).1,
   (wikidata_multi_comma_joined (lit "wikidata") (lit "Q1")
      [(lit " ", lit " ", lit "Q42")] (by decide) (by decide) (by decide)
      (by simp) (by decide)).2 (lit "Qx") (by decide) (by decide)⟩
